import Mathlib

/-!
Verification of the Cane kernel core: physical frame allocator, scheduler,
and the context-switch primitive.

Shallow embedding of the C sources:
* `src/mm/pmm.c` — bitmap-based physical frame allocator,
* `src/unnamed/part_008` (task.c) — task records, runqueue, scheduler,
* `src/unnamed/part_011` (switch.asm) — context-switch primitive,
* `src/include/valen/task.h` — `task_context_t` / `task_t` layout.

Machine integers (`uint64_t`, `uint8_t`) are modelled as `Nat`; bitmap bytes
carry the well-formedness fact `byte < 256` where a proof needs it (the C type
`uint8_t` enforces it).  Pointers are modelled as `Nat` addresses; `NULL`
returns become `Option`/sentinel results exactly where the C tests them.
-/

namespace Cane

/-! ## Physical frame allocator (`src/mm/pmm.c`)

The allocator state consists of the byte array `bitmap` (the C globals
`bitmap`/`bitmap_size`; here `bitmap_size = bitmap.length`), `total_pages`
and `used_pages`.  The spinlock serialises the C code on one core and has no
observable effect on the sequential semantics, so it is not modelled.
-/

structure PmmState where
  bitmap : List Nat
  total_pages : Nat
  used_pages : Nat
  deriving DecidableEq

/-- `bitmap[block / 8] & (1 << (block % 8))` tested against zero —
the bit test used throughout `pmm.c` (true = frame used). -/
def pmm_test_bit (bm : List Nat) (block : Nat) : Bool :=
  (bm.getD (block / 8) 0) &&& (1 <<< (block % 8)) != 0

/-- `bitmap[block / 8] |= (1 << (block % 8))` -/
def pmm_set_bit (bm : List Nat) (block : Nat) : List Nat :=
  bm.set (block / 8) ((bm.getD (block / 8) 0) ||| (1 <<< (block % 8)))

/-- `bitmap[block / 8] &= ~(1 << (block % 8))` on a `uint8_t`:
the complement is taken inside 8 bits, i.e. `255 ^^^ mask`. -/
def pmm_clear_bit (bm : List Nat) (block : Nat) : List Nat :=
  bm.set (block / 8) ((bm.getD (block / 8) 0) &&& (255 ^^^ (1 <<< (block % 8))))

/-- `pmm_init(start, size)`: `total_pages = size/4096`,
`bitmap_size = (total_pages+7)/8`, all bitmap bytes `0xFF`,
`used_pages = total_pages`.  The bitmap placement address `start` has no
observable content in the model. -/
def pmm_init (size : Nat) : PmmState :=
  { bitmap := List.replicate ((size / 4096 + 7) / 8) 255
    total_pages := size / 4096
    used_pages := size / 4096 }

/-- `pmm_mark_free(addr)` from `pmm.c`. -/
def pmm_mark_free (s : PmmState) (addr : Nat) : PmmState :=
  let block := addr / 4096
  if block < s.total_pages then
    if pmm_test_bit s.bitmap block then
      { s with bitmap := pmm_clear_bit s.bitmap block
               used_pages := if 0 < s.used_pages then s.used_pages - 1 else s.used_pages }
    else s
  else s

/-- `pmm_mark_used(addr)` from `pmm.c`. -/
def pmm_mark_used (s : PmmState) (addr : Nat) : PmmState :=
  let block := addr / 4096
  if block < s.total_pages then
    if pmm_test_bit s.bitmap block then s
    else
      { s with bitmap := pmm_set_bit s.bitmap block
               used_pages := s.used_pages + 1 }
  else s

/-- Inner loop of `pmm_alloc_page`: for `j = 0..7`, take the first `j` with
`!(bitmap[i] & (1 << j))` whose address `(i*8+j)*4096` is not below
`0x200000` (the `continue` skip).  `base = i * 8`; returns the bit index. -/
def pmm_scan_pred (byte base j : Nat) : Bool :=
  ((byte &&& (1 <<< j)) == 0) && decide (0x200000 ≤ (base + j) * 4096)

def pmm_scan_byte (byte base : Nat) : Option Nat :=
  ((List.range 8).find? (pmm_scan_pred byte base)).map (fun j => base + j)

/-- Outer loop of `pmm_alloc_page`: bytes `i = 0 .. bitmap_size-1`, skipping
bytes equal to `0xFF`; `i` is the index of the head of `l` in the full
bitmap. -/
def pmm_find_free : List Nat → Nat → Option Nat
  | [], _ => none
  | byte :: rest, i =>
    if byte ≠ 255 then
      match pmm_scan_byte byte (8 * i) with
      | some b => some b
      | none => pmm_find_free rest (i + 1)
    else pmm_find_free rest (i + 1)

/-- `pmm_alloc_page()`: first qualifying clear bit is set, `used_pages`
incremented, the raw physical address returned; `none` models the `NULL`
return. -/
def pmm_alloc_page (s : PmmState) : Option Nat × PmmState :=
  match pmm_find_free s.bitmap 0 with
  | some b =>
      (some (b * 4096),
       { s with bitmap := pmm_set_bit s.bitmap b, used_pages := s.used_pages + 1 })
  | none => (none, s)

/-- `pmm_free_page(addr)` — delegates to `pmm_mark_free`. -/
def pmm_free_page (s : PmmState) (addr : Nat) : PmmState :=
  pmm_mark_free s addr

def pmm_get_total_kb (s : PmmState) : Nat := s.total_pages * 4

def pmm_get_used_kb (s : PmmState) : Nat := s.used_pages * 4

/-- `return (total_pages > used_pages) ? (total_pages - used_pages) * 4ULL : 0;` -/
def pmm_get_free_kb (s : PmmState) : Nat :=
  if s.used_pages < s.total_pages then (s.total_pages - s.used_pages) * 4 else 0

/-! ### Bit-level bridge lemmas -/

theorem pmm_test_bit_eq_testBit (bm : List Nat) (b : Nat) :
    pmm_test_bit bm b = (bm.getD (b / 8) 0).testBit (b % 8) := by
  have hand : (bm.getD (b / 8) 0) &&& 1 <<< (b % 8)
      = ((bm.getD (b / 8) 0).testBit (b % 8)).toNat * 2 ^ (b % 8) := by
    rw [Nat.shiftLeft_eq, one_mul, Nat.and_two_pow]
  unfold pmm_test_bit
  rw [hand]
  rcases (bm.getD (b / 8) 0).testBit (b % 8) with _ | _
  · simp
  · simp [Nat.pos_iff_ne_zero, Nat.pow_eq_zero]

theorem getD_set_self (l : List Nat) (i v : Nat) (h : i < l.length) :
    (l.set i v).getD i 0 = v := by
  simp [List.getD_eq_getElem?_getD, List.getElem?_set_self', h]

theorem getD_set_ne (l : List Nat) (i j v : Nat) (h : i ≠ j) :
    (l.set i v).getD j 0 = l.getD j 0 := by
  simp [List.getD_eq_getElem?_getD, List.getElem?_set_ne h]

theorem testBit_255 (j : Nat) (hj : j < 8) : Nat.testBit 255 j = true := by
  have h : ∀ j, j < 8 → Nat.testBit 255 j = true := by decide
  exact h j hj

theorem shiftLeft_one_eq (j : Nat) : (1 <<< j : Nat) = 2 ^ j := by
  rw [Nat.shiftLeft_eq, one_mul]

/-- Setting bit `b` makes `pmm_test_bit` at `b` true. -/
theorem pmm_test_set_self (bm : List Nat) (b : Nat) (h : b / 8 < bm.length) :
    pmm_test_bit (pmm_set_bit bm b) b = true := by
  rw [pmm_test_bit_eq_testBit, pmm_set_bit, getD_set_self _ _ _ h,
    shiftLeft_one_eq, Nat.testBit_or, Nat.testBit_two_pow_self]
  simp

/-- Setting bit `b` does not change `pmm_test_bit` at any other index. -/
theorem pmm_test_set_ne (bm : List Nat) (b b' : Nat) (hne : b' ≠ b) :
    pmm_test_bit (pmm_set_bit bm b) b' = pmm_test_bit bm b' := by
  rw [pmm_test_bit_eq_testBit, pmm_test_bit_eq_testBit, pmm_set_bit]
  by_cases hdiv : b / 8 = b' / 8
  · by_cases hlen : b / 8 < bm.length
    · rw [hdiv, getD_set_self _ _ _ (hdiv ▸ hlen), ← hdiv, shiftLeft_one_eq,
        Nat.testBit_or, Nat.testBit_two_pow_of_ne (by omega), hdiv]
      simp
    · rw [List.set_eq_of_length_le (by omega)]
  · rw [getD_set_ne _ _ _ _ hdiv]

/-- Clearing bit `b` makes `pmm_test_bit` at `b` false. -/
theorem pmm_test_clear_self (bm : List Nat) (b : Nat) :
    pmm_test_bit (pmm_clear_bit bm b) b = false := by
  rw [pmm_test_bit_eq_testBit, pmm_clear_bit]
  by_cases hlen : b / 8 < bm.length
  · rw [getD_set_self _ _ _ hlen, shiftLeft_one_eq, Nat.testBit_and,
      Nat.testBit_xor, testBit_255 _ (Nat.mod_lt _ (by norm_num)),
      Nat.testBit_two_pow_self]
    simp
  · rw [List.set_eq_of_length_le (by omega)]
    have : bm.getD (b / 8) 0 = 0 := by
      simp [List.getD_eq_getElem?_getD, List.getElem?_eq_none (by omega : bm.length ≤ b / 8)]
    rw [this, Nat.zero_testBit]

/-- Clearing bit `b` does not change `pmm_test_bit` at any other index. -/
theorem pmm_test_clear_ne (bm : List Nat) (b b' : Nat) (hne : b' ≠ b) :
    pmm_test_bit (pmm_clear_bit bm b) b' = pmm_test_bit bm b' := by
  rw [pmm_test_bit_eq_testBit, pmm_test_bit_eq_testBit, pmm_clear_bit]
  by_cases hdiv : b / 8 = b' / 8
  · by_cases hlen : b / 8 < bm.length
    · rw [hdiv, getD_set_self _ _ _ (hdiv ▸ hlen), ← hdiv, shiftLeft_one_eq,
        Nat.testBit_and, Nat.testBit_xor, hdiv,
        testBit_255 _ (Nat.mod_lt _ (by norm_num)),
        Nat.testBit_two_pow_of_ne (by omega)]
      simp
    · rw [List.set_eq_of_length_le (by omega)]
  · rw [getD_set_ne _ _ _ _ hdiv]

/-! ### Counting set and clear bits

`count_set_bits bm n` is the number of set bits among the first `n` bitmap
bits — the quantity the specification asserts `used_pages` tracks. -/

def count_set_bits (bm : List Nat) (n : Nat) : Nat :=
  ((Finset.range n).filter (fun b => pmm_test_bit bm b = true)).card

def count_clear_bits (bm : List Nat) (n : Nat) : Nat :=
  ((Finset.range n).filter (fun b => pmm_test_bit bm b = false)).card

theorem count_set_add_count_clear (bm : List Nat) (n : Nat) :
    count_set_bits bm n + count_clear_bits bm n = n := by
  unfold count_set_bits count_clear_bits
  have := Finset.filter_card_add_filter_neg_card_eq_card
    (s := Finset.range n) (p := fun b => pmm_test_bit bm b = true)
  rw [Finset.card_range] at this
  have heq : Finset.filter (fun a => ¬pmm_test_bit bm a = true) (Finset.range n)
      = Finset.filter (fun b => pmm_test_bit bm b = false) (Finset.range n) := by
    apply Finset.filter_congr
    intro x _
    simp [Bool.not_eq_true]
  rw [heq] at this
  exact this

theorem count_set_le (bm : List Nat) (n : Nat) : count_set_bits bm n ≤ n := by
  calc count_set_bits bm n ≤ (Finset.range n).card := Finset.card_filter_le _ _
  _ = n := Finset.card_range n

/-- Setting a previously clear bit `b < n` increments the set-bit count. -/
theorem count_set_bits_set (bm : List Nat) (n b : Nat) (hb : b < n)
    (hlen : b / 8 < bm.length) (hclear : pmm_test_bit bm b = false) :
    count_set_bits (pmm_set_bit bm b) n = count_set_bits bm n + 1 := by
  unfold count_set_bits
  have hfilter : (Finset.range n).filter (fun x => pmm_test_bit (pmm_set_bit bm b) x = true)
      = insert b ((Finset.range n).filter (fun x => pmm_test_bit bm x = true)) := by
    ext x
    by_cases hx : x = b
    · subst hx
      simp [Finset.mem_filter, Finset.mem_range, hb, pmm_test_set_self bm x hlen]
    · simp [Finset.mem_filter, Finset.mem_insert, hx, pmm_test_set_ne bm b x hx]
  rw [hfilter, Finset.card_insert_of_not_mem (by simp [hclear])]

/-- Clearing a previously set bit `b < n` decrements the set-bit count
(stated additively to stay in `Nat`). -/
theorem count_set_bits_clear (bm : List Nat) (n b : Nat) (hb : b < n)
    (hset : pmm_test_bit bm b = true) :
    count_set_bits bm n = count_set_bits (pmm_clear_bit bm b) n + 1 := by
  unfold count_set_bits
  have hfilter : (Finset.range n).filter (fun x => pmm_test_bit bm x = true)
      = insert b ((Finset.range n).filter (fun x => pmm_test_bit (pmm_clear_bit bm b) x = true)) := by
    ext x
    by_cases hx : x = b
    · subst hx
      simp [Finset.mem_filter, Finset.mem_range, hb, hset]
    · simp [Finset.mem_filter, Finset.mem_insert, hx, pmm_test_clear_ne bm b x hx]
  rw [hfilter, Finset.card_insert_of_not_mem (by simp [pmm_test_clear_self])]

/-! ### Characterizing the `pmm_alloc_page` scan -/

theorem find?_range_some {p : Nat → Bool} :
    ∀ {n j : Nat}, (List.range n).find? p = some j →
      j < n ∧ p j = true ∧ ∀ k, k < j → p k = false := by
  intro n
  induction n with
  | zero => intro j h; simp [List.range_zero] at h
  | succ n ih =>
    intro j h
    rw [List.range_succ, List.find?_append] at h
    cases hfound : (List.range n).find? p with
    | some j' =>
      rw [hfound] at h
      simp only [Option.or_some, Option.some.injEq] at h
      subst h
      obtain ⟨h1, h2, h3⟩ := ih hfound
      exact ⟨Nat.lt_succ_of_lt h1, h2, h3⟩
    | none =>
      rw [hfound] at h
      simp only [Option.none_or] at h
      cases hpn : p n with
      | false => simp [List.find?, hpn] at h
      | true =>
        simp only [List.find?, hpn] at h
        cases h
        refine ⟨Nat.lt_succ_self _, hpn, fun k hk => ?_⟩
        have := List.find?_eq_none.mp hfound k (List.mem_range.mpr hk)
        simpa using this

theorem find?_range_none {p : Nat → Bool} {n : Nat}
    (h : (List.range n).find? p = none) : ∀ k, k < n → p k = false := by
  intro k hk
  have := List.find?_eq_none.mp h k (List.mem_range.mpr hk)
  simpa using this

theorem pmm_scan_byte_some {byte base b : Nat} (h : pmm_scan_byte byte base = some b) :
    ∃ j, j < 8 ∧ b = base + j ∧ pmm_scan_pred byte base j = true ∧
      ∀ k, k < j → pmm_scan_pred byte base k = false := by
  unfold pmm_scan_byte at h
  cases hfind : (List.range 8).find? (pmm_scan_pred byte base) with
  | none => rw [hfind] at h; simp at h
  | some j =>
    rw [hfind] at h
    simp only [Option.map_some', Option.some.injEq] at h
    obtain ⟨h1, h2, h3⟩ := find?_range_some hfind
    exact ⟨j, h1, h.symm, h2, h3⟩

theorem pmm_scan_byte_none {byte base : Nat} (h : pmm_scan_byte byte base = none) :
    ∀ j, j < 8 → pmm_scan_pred byte base j = false := by
  unfold pmm_scan_byte at h
  cases hfind : (List.range 8).find? (pmm_scan_pred byte base) with
  | none => exact find?_range_none hfind
  | some j => rw [hfind] at h; simp at h

theorem pmm_scan_pred_255 (base : Nat) : ∀ j, j < 8 → pmm_scan_pred 255 base j = false := by
  have hbit : ∀ j, j < 8 → (((255 : Nat) &&& (1 <<< j)) == 0) = false := by decide
  intro j hj
  unfold pmm_scan_pred
  rw [hbit j hj, Bool.false_and]

/-- The result of the full bitmap scan, characterized byte-by-byte:
the returned bit lies in byte `k` at bit `j`, is clear, its address is in
range, and every earlier scan position fails the predicate. -/
theorem pmm_find_free_some :
    ∀ (l : List Nat) (i b : Nat), pmm_find_free l i = some b →
      ∃ k j, k < l.length ∧ j < 8 ∧ b = 8 * (i + k) + j ∧
        ((l.getD k 0 &&& (1 <<< j)) == 0) = true ∧ 0x200000 ≤ b * 4096 ∧
        (∀ k' j', k' < k → j' < 8 → pmm_scan_pred (l.getD k' 0) (8 * (i + k')) j' = false) ∧
        (∀ j', j' < j → pmm_scan_pred (l.getD k 0) (8 * (i + k)) j' = false) := by
  intro l
  induction l with
  | nil => intro i b h; simp [pmm_find_free] at h
  | cons byte rest ih =>
    intro i b h
    unfold pmm_find_free at h
    by_cases hbyte : byte ≠ 255
    · rw [if_pos hbyte] at h
      cases hscan : pmm_scan_byte byte (8 * i) with
      | some b0 =>
        rw [hscan] at h
        cases h
        obtain ⟨j, hj8, hb0, hpred, hmin⟩ := pmm_scan_byte_some hscan
        refine ⟨0, j, Nat.succ_pos _, hj8, by omega, ?_, ?_, ?_, ?_⟩
        · have hpc := hpred
          unfold pmm_scan_pred at hpc
          rw [Bool.and_eq_true] at hpc
          simpa using hpc.1
        · have hpc := hpred
          unfold pmm_scan_pred at hpc
          rw [Bool.and_eq_true] at hpc
          have := of_decide_eq_true hpc.2
          omega
        · intro k' j' hk' _; omega
        · intro j' hj'
          have := hmin j' hj'
          simpa using this
      | none =>
        rw [hscan] at h
        obtain ⟨k, j, hk, hj8, hb, hclear, haddr, hmink, hminj⟩ := ih (i + 1) b h
        refine ⟨k + 1, j, by simpa using Nat.succ_lt_succ hk, hj8, by omega, ?_, haddr, ?_, ?_⟩
        · simpa using hclear
        · intro k' j' hk' hj'
          cases k' with
          | zero =>
            simpa using pmm_scan_byte_none hscan j' hj'
          | succ k'' =>
            have := hmink k'' j' (by omega) hj'
            simp only [List.getD_cons_succ]
            have harith : 8 * (i + (k'' + 1)) = 8 * (i + 1 + k'') := by omega
            rw [harith]
            exact this
        · intro j' hj'
          have := hminj j' hj'
          simp only [List.getD_cons_succ]
          have harith : 8 * (i + (k + 1)) = 8 * (i + 1 + k) := by omega
          rw [harith]
          simpa using this
    · rw [if_neg hbyte] at h
      push_neg at hbyte
      subst hbyte
      obtain ⟨k, j, hk, hj8, hb, hclear, haddr, hmink, hminj⟩ := ih (i + 1) b h
      refine ⟨k + 1, j, by simpa using Nat.succ_lt_succ hk, hj8, by omega, ?_, haddr, ?_, ?_⟩
      · simpa using hclear
      · intro k' j' hk' hj'
        cases k' with
        | zero =>
          simpa using pmm_scan_pred_255 (8 * (i + 0)) j' hj'
        | succ k'' =>
          have := hmink k'' j' (by omega) hj'
          simp only [List.getD_cons_succ]
          have harith : 8 * (i + (k'' + 1)) = 8 * (i + 1 + k'') := by omega
          rw [harith]
          exact this
      · intro j' hj'
        have := hminj j' hj'
        simp only [List.getD_cons_succ]
        have harith : 8 * (i + (k + 1)) = 8 * (i + 1 + k) := by omega
        rw [harith]
        simpa using this

theorem pmm_find_free_none :
    ∀ (l : List Nat) (i : Nat), pmm_find_free l i = none →
      ∀ k j, k < l.length → j < 8 → pmm_scan_pred (l.getD k 0) (8 * (i + k)) j = false := by
  intro l
  induction l with
  | nil => intro i _ k j hk _; simp at hk
  | cons byte rest ih =>
    intro i h k j hk hj
    unfold pmm_find_free at h
    by_cases hbyte : byte ≠ 255
    · rw [if_pos hbyte] at h
      cases hscan : pmm_scan_byte byte (8 * i) with
      | some b0 => rw [hscan] at h; cases h
      | none =>
        rw [hscan] at h
        cases k with
        | zero => simpa using pmm_scan_byte_none hscan j hj
        | succ k'' =>
          have := ih (i + 1) h k'' j (by simpa using Nat.lt_of_succ_lt_succ hk) hj
          simp only [List.getD_cons_succ]
          have harith : 8 * (i + (k'' + 1)) = 8 * (i + 1 + k'') := by omega
          rw [harith]
          exact this
    · rw [if_neg hbyte] at h
      push_neg at hbyte
      subst hbyte
      cases k with
      | zero => simpa using pmm_scan_pred_255 (8 * (i + 0)) j hj
      | succ k'' =>
        have := ih (i + 1) h k'' j (by simpa using Nat.lt_of_succ_lt_succ hk) hj
        simp only [List.getD_cons_succ]
        have harith : 8 * (i + (k'' + 1)) = 8 * (i + 1 + k'') := by omega
        rw [harith]
        exact this

theorem pmm_find_free_none_of :
    ∀ (l : List Nat) (i : Nat),
      (∀ k j, k < l.length → j < 8 → pmm_scan_pred (l.getD k 0) (8 * (i + k)) j = false) →
      pmm_find_free l i = none := by
  intro l
  induction l with
  | nil => intro i _; rfl
  | cons byte rest ih =>
    intro i hall
    have hrest : pmm_find_free rest (i + 1) = none := by
      apply ih
      intro k j hk hj
      have := hall (k + 1) j (by simpa using Nat.succ_lt_succ hk) hj
      simp only [List.getD_cons_succ] at this
      have harith : 8 * (i + 1 + k) = 8 * (i + (k + 1)) := by omega
      rw [harith]
      exact this
    unfold pmm_find_free
    by_cases hbyte : byte ≠ 255
    · rw [if_pos hbyte]
      have hscan : pmm_scan_byte byte (8 * i) = none := by
        unfold pmm_scan_byte
        rw [List.find?_eq_none.mpr]
        · rfl
        · intro j hj
          have := hall 0 j (Nat.succ_pos _) (List.mem_range.mp hj)
          simp only [List.getD_cons_zero, Nat.add_zero] at this
          simp [this]
      rw [hscan]
      exact hrest
    · rw [if_neg hbyte]
      exact hrest

/-- Global restatement of the scan result over bit indices of the whole
bitmap: the returned bit is clear, addressable (`≥ 0x200000`), within the
bitmap, and least such in scan order. -/
theorem pmm_test_bit_decompose (bm : List Nat) (k j : Nat) (hj : j < 8) :
    pmm_test_bit bm (8 * k + j) = ((bm.getD k 0 &&& (1 <<< j)) != 0) := by
  unfold pmm_test_bit
  have h1 : (8 * k + j) / 8 = k := by omega
  have h2 : (8 * k + j) % 8 = j := by omega
  rw [h1, h2]

theorem pmm_find_free_global (bm : List Nat) (b : Nat)
    (h : pmm_find_free bm 0 = some b) :
    b < 8 * bm.length ∧ pmm_test_bit bm b = false ∧ 0x200000 ≤ b * 4096 ∧
      ∀ b', b' < b → 0x200000 ≤ b' * 4096 → pmm_test_bit bm b' = true := by
  obtain ⟨k, j, hk, hj, hb, hclear, haddr, hmink, hminj⟩ := pmm_find_free_some bm 0 b h
  simp only [Nat.zero_add] at hb hmink hminj
  have hzero : bm.getD k 0 &&& (1 <<< j) = 0 := by simpa using hclear
  refine ⟨by omega, ?_, haddr, ?_⟩
  · rw [hb, pmm_test_bit_decompose _ _ _ hj, hzero]
    simp
  · intro b' hb' haddr'
    have hdecomp : b' = 8 * (b' / 8) + b' % 8 := by omega
    have hj' : b' % 8 < 8 := Nat.mod_lt _ (by norm_num)
    have hpred : pmm_scan_pred (bm.getD (b' / 8) 0) (8 * (b' / 8)) (b' % 8) = false := by
      rcases Nat.lt_trichotomy (b' / 8) k with hlt | heq | hgt
      · exact hmink (b' / 8) (b' % 8) hlt hj'
      · rw [heq]
        apply hminj
        omega
      · omega
    unfold pmm_scan_pred at hpred
    have hdec : decide (0x200000 ≤ (8 * (b' / 8) + b' % 8) * 4096) = true := by
      rw [decide_eq_true_iff]
      omega
    rw [hdec, Bool.and_true] at hpred
    rw [hdecomp, pmm_test_bit_decompose _ _ _ hj']
    simp only [beq_eq_false_iff_ne, ne_eq] at hpred
    simpa using hpred

/-! ### The allocator invariant

`PmmWf` collects the structural facts every reachable allocator state
satisfies: all bitmap bytes fit in `uint8_t`, and every bit index from
`total_pages` up to the end of the byte array (the tail padding written by
`pmm_init` and never cleared, since `pmm_mark_free` bounds-checks) stays
set. -/

def PmmWf (s : PmmState) : Prop :=
  (∀ k, k < s.bitmap.length → s.bitmap.getD k 0 < 256) ∧
  (∀ b, b < 8 * s.bitmap.length → s.total_pages ≤ b → pmm_test_bit s.bitmap b = true)

instance (s : PmmState) : Decidable (PmmWf s) := by
  unfold PmmWf
  infer_instance

/-- Full invariant: `used_pages` counts the set bits among the first
`total_pages` bits, the bitmap is large enough, and `PmmWf` holds. -/
def PmmInv (s : PmmState) : Prop :=
  s.used_pages = count_set_bits s.bitmap s.total_pages ∧
  s.total_pages ≤ 8 * s.bitmap.length ∧ PmmWf s

theorem pmm_init_inv (size : Nat) : PmmInv (pmm_init size) := by
  set n := size / 4096 with hn
  set len := (n + 7) / 8 with hlen
  have hn8 : n ≤ 8 * len := by omega
  have hgetD : ∀ k, (List.replicate len (255 : Nat)).getD k 0 = if k < len then 255 else 0 := by
    intro k
    by_cases hk : k < len
    · simp [List.getD_eq_getElem?_getD, List.getElem?_replicate, hk]
    · simp [List.getD_eq_getElem?_getD, List.getElem?_replicate, hk]
  have htest : ∀ b, b < 8 * len → pmm_test_bit (List.replicate len 255) b = true := by
    intro b hb
    rw [pmm_test_bit_eq_testBit, hgetD, if_pos (by omega : b / 8 < len)]
    exact testBit_255 _ (Nat.mod_lt _ (by norm_num))
  refine ⟨?_, ?_, ?_, ?_⟩
  · show n = count_set_bits (List.replicate len 255) n
    unfold count_set_bits
    rw [Finset.filter_true_of_mem, Finset.card_range]
    intro b hb
    have hbn := Finset.mem_range.mp hb
    exact htest b (by omega)
  · show n ≤ 8 * (List.replicate len (255 : Nat)).length
    simpa using hn8
  · show ∀ k, k < (List.replicate len (255 : Nat)).length →
        (List.replicate len (255 : Nat)).getD k 0 < 256
    intro k hk
    rw [hgetD]
    split <;> norm_num
  · show ∀ b, b < 8 * (List.replicate len (255 : Nat)).length → n ≤ b →
        pmm_test_bit (List.replicate len 255) b = true
    intro b hb _
    exact htest b (by simpa using hb)

theorem pmm_inv_mark_free (s : PmmState) (addr : Nat) (h : PmmInv s) :
    PmmInv (pmm_mark_free s addr) := by
  obtain ⟨hused, hlen, hbytes, htail⟩ := h
  unfold pmm_mark_free
  by_cases h1 : addr / 4096 < s.total_pages
  · rw [if_pos h1]
    by_cases h2 : pmm_test_bit s.bitmap (addr / 4096) = true
    · rw [if_pos h2]
      set b := addr / 4096 with hb
      have hcount := count_set_bits_clear s.bitmap s.total_pages b h1 h2
      have hpos : 0 < s.used_pages := by
        rw [hused, hcount]
        omega
      refine ⟨?_, ?_, ?_, ?_⟩
      · show (if 0 < s.used_pages then s.used_pages - 1 else s.used_pages)
            = count_set_bits (pmm_clear_bit s.bitmap b) s.total_pages
        rw [if_pos hpos, hused, hcount]
        omega
      · show s.total_pages ≤ 8 * (pmm_clear_bit s.bitmap b).length
        unfold pmm_clear_bit
        rwa [List.length_set]
      · show ∀ k, k < (pmm_clear_bit s.bitmap b).length →
            (pmm_clear_bit s.bitmap b).getD k 0 < 256
        intro k hk
        have hk' : k < s.bitmap.length := by
          unfold pmm_clear_bit at hk
          rwa [List.length_set] at hk
        unfold pmm_clear_bit
        by_cases hkb : k = b / 8
        · rw [hkb]
          rw [getD_set_self _ _ _ (hkb ▸ hk')]
          calc s.bitmap.getD (b / 8) 0 &&& (255 ^^^ 1 <<< (b % 8))
              ≤ s.bitmap.getD (b / 8) 0 := Nat.and_le_left
          _ < 256 := hbytes (b / 8) (hkb ▸ hk')
        · rw [getD_set_ne _ _ _ _ (fun hh => hkb hh.symm)]
          exact hbytes k hk'
      · show ∀ b', b' < 8 * (pmm_clear_bit s.bitmap b).length → s.total_pages ≤ b' →
            pmm_test_bit (pmm_clear_bit s.bitmap b) b' = true
        intro b' hb2 hb1
        have hb2' : b' < 8 * s.bitmap.length := by
          unfold pmm_clear_bit at hb2
          rwa [List.length_set] at hb2
        rw [pmm_test_clear_ne _ _ _ (by omega)]
        exact htail b' hb2' hb1
    · rw [if_neg h2]
      exact ⟨hused, hlen, hbytes, htail⟩
  · rw [if_neg h1]
    exact ⟨hused, hlen, hbytes, htail⟩

/-- Byte bound for the `|=` update. -/
theorem pmm_set_bit_getD_lt (bm : List Nat) (b : Nat)
    (hbytes : ∀ k, k < bm.length → bm.getD k 0 < 256) :
    ∀ k, k < (pmm_set_bit bm b).length → (pmm_set_bit bm b).getD k 0 < 256 := by
  intro k hk
  have hk' : k < bm.length := by
    unfold pmm_set_bit at hk
    rwa [List.length_set] at hk
  unfold pmm_set_bit
  by_cases hkb : k = b / 8
  · rw [hkb, getD_set_self _ _ _ (hkb ▸ hk'), shiftLeft_one_eq]
    have hpow : (2 : Nat) ^ (b % 8) < 2 ^ 8 :=
      Nat.pow_lt_pow_right (by norm_num) (Nat.mod_lt _ (by norm_num))
    have := Nat.or_lt_two_pow (n := 8) (by simpa using hbytes (b / 8) (hkb ▸ hk')) hpow
    simpa using this
  · rw [getD_set_ne _ _ _ _ (fun hh => hkb hh.symm)]
    exact hbytes k hk'

theorem pmm_inv_mark_used (s : PmmState) (addr : Nat) (h : PmmInv s) :
    PmmInv (pmm_mark_used s addr) := by
  obtain ⟨hused, hlen, hbytes, htail⟩ := h
  unfold pmm_mark_used
  by_cases h1 : addr / 4096 < s.total_pages
  · rw [if_pos h1]
    by_cases h2 : pmm_test_bit s.bitmap (addr / 4096) = true
    · rw [if_pos h2]
      exact ⟨hused, hlen, hbytes, htail⟩
    · rw [if_neg h2]
      set b := addr / 4096 with hb
      have hclear : pmm_test_bit s.bitmap b = false := by
        simpa using h2
      have hbl : b / 8 < s.bitmap.length := by omega
      refine ⟨?_, ?_, ?_, ?_⟩
      · show s.used_pages + 1 = count_set_bits (pmm_set_bit s.bitmap b) s.total_pages
        rw [hused, count_set_bits_set s.bitmap s.total_pages b h1 hbl hclear]
      · show s.total_pages ≤ 8 * (pmm_set_bit s.bitmap b).length
        unfold pmm_set_bit
        rwa [List.length_set]
      · exact pmm_set_bit_getD_lt s.bitmap b hbytes
      · show ∀ b', b' < 8 * (pmm_set_bit s.bitmap b).length → s.total_pages ≤ b' →
            pmm_test_bit (pmm_set_bit s.bitmap b) b' = true
        intro b' hb2 hb1
        have hb2' : b' < 8 * s.bitmap.length := by
          unfold pmm_set_bit at hb2
          rwa [List.length_set] at hb2
        rw [pmm_test_set_ne _ _ _ (by omega)]
        exact htail b' hb2' hb1
  · rw [if_neg h1]
    exact ⟨hused, hlen, hbytes, htail⟩

theorem pmm_inv_alloc (s : PmmState) (h : PmmInv s) :
    PmmInv (pmm_alloc_page s).2 := by
  obtain ⟨hused, hlen, hbytes, htail⟩ := h
  unfold pmm_alloc_page
  cases hfind : pmm_find_free s.bitmap 0 with
  | none => exact ⟨hused, hlen, hbytes, htail⟩
  | some b =>
    obtain ⟨hblt, hclear, haddr, _⟩ := pmm_find_free_global s.bitmap b hfind
    have hbtotal : b < s.total_pages := by
      by_contra hcon
      have := htail b hblt (by omega)
      rw [hclear] at this
      cases this
    have hbl : b / 8 < s.bitmap.length := by omega
    refine ⟨?_, ?_, ?_, ?_⟩
    · show s.used_pages + 1 = count_set_bits (pmm_set_bit s.bitmap b) s.total_pages
      rw [hused, count_set_bits_set s.bitmap s.total_pages b hbtotal hbl hclear]
    · show s.total_pages ≤ 8 * (pmm_set_bit s.bitmap b).length
      unfold pmm_set_bit
      rwa [List.length_set]
    · exact pmm_set_bit_getD_lt s.bitmap b hbytes
    · show ∀ b', b' < 8 * (pmm_set_bit s.bitmap b).length → s.total_pages ≤ b' →
          pmm_test_bit (pmm_set_bit s.bitmap b) b' = true
      intro b' hb2 hb1
      have hb2' : b' < 8 * s.bitmap.length := by
        unfold pmm_set_bit at hb2
        rwa [List.length_set] at hb2
      rw [pmm_test_set_ne _ _ _ (by omega)]
      exact htail b' hb2' hb1

theorem pmm_inv_free_page (s : PmmState) (addr : Nat) (h : PmmInv s) :
    PmmInv (pmm_free_page s addr) :=
  pmm_inv_mark_free s addr h


/-! ### Round-trip: allocate then free -/

theorem set_getD_eq_self (l : List Nat) : ∀ i, l.set i (l.getD i 0) = l := by
  induction l with
  | nil => intro i; rfl
  | cons a t ih =>
    intro i
    cases i with
    | zero => rfl
    | succ i =>
      show a :: t.set i ((a :: t).getD (i + 1) 0) = a :: t
      rw [List.getD_cons_succ, ih]

/-- Clearing a bit that was just set on a previously clear position restores
the original bitmap (bytes stay inside `uint8_t`). -/
theorem pmm_clear_set_cancel (bm : List Nat) (b : Nat)
    (hbytes : ∀ k, k < bm.length → bm.getD k 0 < 256)
    (hclear : pmm_test_bit bm b = false) :
    pmm_clear_bit (pmm_set_bit bm b) b = bm := by
  unfold pmm_clear_bit pmm_set_bit
  by_cases hlen : b / 8 < bm.length
  · rw [getD_set_self _ _ _ hlen, List.set_set]
    have hbit : (bm.getD (b / 8) 0).testBit (b % 8) = false := by
      rw [← pmm_test_bit_eq_testBit]
      exact hclear
    have hbyte : (bm.getD (b / 8) 0 ||| 1 <<< (b % 8)) &&& (255 ^^^ 1 <<< (b % 8))
        = bm.getD (b / 8) 0 := by
      apply Nat.eq_of_testBit_eq
      intro i
      rw [shiftLeft_one_eq, Nat.testBit_and, Nat.testBit_or, Nat.testBit_xor]
      by_cases hi8 : i < 8
      · by_cases hij : i = b % 8
        · rw [hij, Nat.testBit_two_pow_self, testBit_255 _ (Nat.mod_lt _ (by norm_num)), hbit]
          simp
        · rw [Nat.testBit_two_pow_of_ne (fun hh => hij hh.symm), testBit_255 _ hi8]
          simp
      · have hb256 : bm.getD (b / 8) 0 < 2 ^ i := by
          calc bm.getD (b / 8) 0 < 256 := hbytes (b / 8) hlen
          _ = 2 ^ 8 := by norm_num
          _ ≤ 2 ^ i := Nat.pow_le_pow_right (by norm_num) (by omega)
        have hp256 : (2 : Nat) ^ (b % 8) < 2 ^ i := by
          calc (2 : Nat) ^ (b % 8) < 2 ^ 8 :=
              Nat.pow_lt_pow_right (by norm_num) (Nat.mod_lt _ (by norm_num))
          _ ≤ 2 ^ i := Nat.pow_le_pow_right (by norm_num) (by omega)
        have h255 : (255 : Nat) < 2 ^ i := by
          calc (255 : Nat) < 2 ^ 8 := by norm_num
          _ ≤ 2 ^ i := Nat.pow_le_pow_right (by norm_num) (by omega)
        rw [Nat.testBit_lt_two_pow hb256, Nat.testBit_lt_two_pow hp256,
          Nat.testBit_lt_two_pow h255]
        simp
    rw [hbyte]
    exact set_getD_eq_self bm (b / 8)
  · have hle : bm.length ≤ b / 8 := le_of_not_lt hlen
    rw [List.set_eq_of_length_le hle, List.set_eq_of_length_le hle]

/-- C8: for every allocator state (with `uint8_t` bytes and the `pmm_init`
tail padding intact, i.e. `PmmWf`) in which `pmm_alloc_page()` succeeds,
calling `pmm_free_page()` on the returned address restores the bitmap and
`used_pages` to exactly their values before the `pmm_alloc_page()` call. -/
theorem C8_alloc_then_free_restores (s : PmmState) (addr : Nat) (s' : PmmState)
    (hwf : PmmWf s) (h : pmm_alloc_page s = (some addr, s')) :
    pmm_free_page s' addr = s := by
  obtain ⟨hbytes, htail⟩ := hwf
  unfold pmm_alloc_page at h
  cases hfind : pmm_find_free s.bitmap 0 with
  | none => rw [hfind] at h; exact absurd (congrArg Prod.fst h) (by simp)
  | some b =>
    rw [hfind] at h
    have haddr : addr = b * 4096 := by
      have := congrArg Prod.fst h
      simpa using this.symm
    have hs' : s' = { s with bitmap := pmm_set_bit s.bitmap b
                             used_pages := s.used_pages + 1 } := by
      have := congrArg Prod.snd h
      simpa using this.symm
    obtain ⟨hblt, hclear, _, _⟩ := pmm_find_free_global s.bitmap b hfind
    have hbtotal : b < s.total_pages := by
      by_contra hcon
      have := htail b hblt (by omega)
      rw [hclear] at this
      cases this
    have hblock : addr / 4096 = b := by
      rw [haddr]
      exact Nat.mul_div_cancel _ (by norm_num)
    subst hs'
    unfold pmm_free_page pmm_mark_free
    rw [hblock]
    rw [if_pos (show b < s.total_pages from hbtotal)]
    rw [if_pos (by
      show pmm_test_bit (pmm_set_bit s.bitmap b) b = true
      exact pmm_test_set_self s.bitmap b (by omega))]
    rw [show pmm_clear_bit (pmm_set_bit s.bitmap b) b = s.bitmap from
      pmm_clear_set_cancel s.bitmap b hbytes hclear]
    simp

/-! ### Operation sequences over the allocator -/

/-- One external allocator call, as named in the specification. -/
inductive PmmOp where
  | markUsed (addr : Nat)
  | markFree (addr : Nat)
  | allocPage
  | freePage (addr : Nat)
  deriving DecidableEq

def pmm_step (s : PmmState) : PmmOp → PmmState
  | .markUsed a => pmm_mark_used s a
  | .markFree a => pmm_mark_free s a
  | .allocPage => (pmm_alloc_page s).2
  | .freePage a => pmm_free_page s a

def pmm_run (s : PmmState) (ops : List PmmOp) : PmmState :=
  ops.foldl pmm_step s

theorem pmm_inv_step (s : PmmState) (op : PmmOp) (h : PmmInv s) :
    PmmInv (pmm_step s op) := by
  cases op with
  | markUsed a => exact pmm_inv_mark_used s a h
  | markFree a => exact pmm_inv_mark_free s a h
  | allocPage => exact pmm_inv_alloc s h
  | freePage a => exact pmm_inv_free_page s a h

theorem pmm_inv_run (s : PmmState) (ops : List PmmOp) (h : PmmInv s) :
    PmmInv (pmm_run s ops) := by
  induction ops generalizing s with
  | nil => exact h
  | cons op rest ih => exact ih (pmm_step s op) (pmm_inv_step s op h)

/-! ## Claim theorems for the physical frame allocator -/

/-- C4: after `pmm_init` and every subsequent sequence of
`pmm_mark_used`/`pmm_mark_free`/`pmm_alloc_page`/`pmm_free_page` calls,
`used_pages` equals the number of set bits among the first `total_pages`
bitmap bits, and `total_pages - used_pages` equals the number of clear bits
among them. -/
theorem C4_used_pages_counts_set_bits (size : Nat) (ops : List PmmOp) :
    (pmm_run (pmm_init size) ops).used_pages
      = count_set_bits (pmm_run (pmm_init size) ops).bitmap
          (pmm_run (pmm_init size) ops).total_pages
    ∧ (pmm_run (pmm_init size) ops).total_pages - (pmm_run (pmm_init size) ops).used_pages
      = count_clear_bits (pmm_run (pmm_init size) ops).bitmap
          (pmm_run (pmm_init size) ops).total_pages := by
  obtain ⟨hused, -, -⟩ := pmm_inv_run (pmm_init size) ops (pmm_init_inv size)
  refine ⟨hused, ?_⟩
  have hsum := count_set_add_count_clear (pmm_run (pmm_init size) ops).bitmap
    (pmm_run (pmm_init size) ops).total_pages
  omega

/-- C5: `pmm_alloc_page()` never returns an address below `0x200000`; on
success it returns the address of the first clear bit at or above `0x200000`
in linear scan order, sets that bit and increments `used_pages`; it returns
failure exactly when no clear bit at or above `0x200000` exists in the
bitmap. -/
theorem C5_alloc_page_first_fit_above_2MB (s : PmmState) :
    (∀ addr s', pmm_alloc_page s = (some addr, s') →
      0x200000 ≤ addr ∧
      ∃ b, addr = b * 4096 ∧ b < 8 * s.bitmap.length ∧
        pmm_test_bit s.bitmap b = false ∧
        (∀ b', b' < b → 0x200000 ≤ b' * 4096 → pmm_test_bit s.bitmap b' = true) ∧
        s' = { s with bitmap := pmm_set_bit s.bitmap b
                      used_pages := s.used_pages + 1 })
    ∧ ((∀ b, b < 8 * s.bitmap.length → 0x200000 ≤ b * 4096 →
          pmm_test_bit s.bitmap b = true) →
        pmm_alloc_page s = (none, s)) := by
  constructor
  · intro addr s' h
    unfold pmm_alloc_page at h
    cases hfind : pmm_find_free s.bitmap 0 with
    | none => rw [hfind] at h; exact absurd (congrArg Prod.fst h) (by simp)
    | some b =>
      rw [hfind] at h
      have haddr : addr = b * 4096 := by simpa using (congrArg Prod.fst h).symm
      have hs' : s' = { s with bitmap := pmm_set_bit s.bitmap b
                               used_pages := s.used_pages + 1 } := by
        simpa using (congrArg Prod.snd h).symm
      obtain ⟨hblt, hclear, hge, hmin⟩ := pmm_find_free_global s.bitmap b hfind
      exact ⟨haddr ▸ hge, b, haddr, hblt, hclear, hmin, hs'⟩
  · intro hall
    have hnone : pmm_find_free s.bitmap 0 = none := by
      apply pmm_find_free_none_of
      intro k j hk hj
      simp only [Nat.zero_add]
      by_cases haddr : 0x200000 ≤ (8 * k + j) * 4096
      · have htest := hall (8 * k + j) (by omega) haddr
        rw [pmm_test_bit_decompose _ _ _ hj] at htest
        have hne : s.bitmap.getD k 0 &&& 1 <<< j ≠ 0 := by simpa using htest
        unfold pmm_scan_pred
        rw [beq_eq_false_iff_ne.mpr hne, Bool.false_and]
      · unfold pmm_scan_pred
        rw [decide_eq_false haddr, Bool.and_false]
    unfold pmm_alloc_page
    rw [hnone]

/-- A state whose first 2 MiB of frames are all used and whose byte 64
(bits 512-519) is `0xF0`: bits 512-515 are clear, so allocation succeeds
exactly at `0x200000`. -/
def c5_bitmap_state : PmmState :=
  { bitmap := List.replicate 64 255 ++ [240], total_pages := 520, used_pages := 100 }

/-- A fully used bitmap: allocation fails. -/
def c5_full_state : PmmState :=
  { bitmap := List.replicate 65 255, total_pages := 520, used_pages := 520 }

set_option maxRecDepth 10000 in
theorem C5_alloc_page_first_fit_above_2MB_witness :
    (0x200000 ≤ 0x200000 ∧
      ∃ b, (0x200000 : Nat) = b * 4096 ∧ b < 8 * c5_bitmap_state.bitmap.length ∧
        pmm_test_bit c5_bitmap_state.bitmap b = false ∧
        (∀ b', b' < b → 0x200000 ≤ b' * 4096 →
          pmm_test_bit c5_bitmap_state.bitmap b' = true) ∧
        (pmm_alloc_page c5_bitmap_state).2
          = { c5_bitmap_state with
                bitmap := pmm_set_bit c5_bitmap_state.bitmap b
                used_pages := c5_bitmap_state.used_pages + 1 })
    ∧ pmm_alloc_page c5_full_state = (none, c5_full_state) :=
  ⟨(C5_alloc_page_first_fit_above_2MB c5_bitmap_state).1 0x200000
      (pmm_alloc_page c5_bitmap_state).2 (by decide),
   (C5_alloc_page_first_fit_above_2MB c5_full_state).2 (by decide)⟩

/-- All frames below `0x200000` used, bit 512 clear, `total_pages = 520`:
allocation succeeds at `0x200000`. -/
def c8_state : PmmState :=
  { bitmap := List.replicate 64 255 ++ [254], total_pages := 520, used_pages := 519 }

set_option maxRecDepth 10000 in
theorem C8_alloc_then_free_restores_witness :
    pmm_free_page (pmm_alloc_page c8_state).2 0x200000 = c8_state :=
  C8_alloc_then_free_restores c8_state 0x200000 (pmm_alloc_page c8_state).2
    (by decide) (by decide)

/-- C10: `pmm_get_free_kb()` returns `(total_pages - used_pages) * 4` when
`used_pages ≤ total_pages`, and exactly `0` (no unsigned wrap-around)
whenever `used_pages` exceeds `total_pages`. -/
theorem C10_get_free_kb_no_underflow (s : PmmState) :
    (s.used_pages ≤ s.total_pages →
      pmm_get_free_kb s = (s.total_pages - s.used_pages) * 4)
    ∧ (s.total_pages < s.used_pages → pmm_get_free_kb s = 0) := by
  unfold pmm_get_free_kb
  constructor
  · intro h
    by_cases hlt : s.used_pages < s.total_pages
    · rw [if_pos hlt]
    · rw [if_neg hlt]
      have h0 : s.total_pages - s.used_pages = 0 := by omega
      rw [h0, Nat.zero_mul]
  · intro h
    rw [if_neg (by omega)]

theorem C10_get_free_kb_no_underflow_witness :
    pmm_get_free_kb { bitmap := [], total_pages := 5, used_pages := 2 } = 12
    ∧ pmm_get_free_kb { bitmap := [], total_pages := 2, used_pages := 5 } = 0 :=
  ⟨by
    have := (C10_get_free_kb_no_underflow
      { bitmap := [], total_pages := 5, used_pages := 2 }).1 (by norm_num)
    simpa using this,
   (C10_get_free_kb_no_underflow
      { bitmap := [], total_pages := 2, used_pages := 5 }).2 (by norm_num)⟩

/-! ## Tasks, runqueue and scheduler (`src/unnamed/part_008`, task.c)

The circular doubly-linked runqueue is modelled as a Lean list headed at the
C `runqueue` pointer, with `next` = cyclic successor (insertion at the head
prepends; removing the head advances it to its successor, exactly as the C
pointer surgery does).  `current_task` is the PID of the pointed-to task
(PIDs are unique in every reachable state, so the pointer comparisons
`target == current_task` and `next != current_task` become PID
comparisons).  The kernel heap is an oracle tape of `malloc` outcomes plus
the set of live blocks, so that leak claims are expressible. -/

/-- `task_state_t` from `task.h`. -/
inductive TaskState where
  | running
  | interruptible
  | uninterruptible
  | zombie
  | stopped
  | traced
  deriving DecidableEq

/-- `task_context_t` from `task.h`: 21 consecutive `uint64_t` fields, so the
byte offset of a field is 8 times its position (r15 at 0 ... ss at 160). -/
structure TaskContext where
  r15 : Nat
  r14 : Nat
  r13 : Nat
  r12 : Nat
  rbp : Nat
  rbx : Nat
  r11 : Nat
  r10 : Nat
  r9 : Nat
  r8 : Nat
  rax : Nat
  rcx : Nat
  rdx : Nat
  rsi : Nat
  rdi : Nat
  orig_rax : Nat
  rip : Nat
  cs : Nat
  eflags : Nat
  rsp : Nat
  ss : Nat
  deriving DecidableEq

/-- `task_t` from `task.h`.  `stackPtr`/`tcbPtr` are the heap addresses of
`task->stack` and of the TCB itself; `next`/`prev` links are represented by
the task's position in the runqueue list. -/
structure Task where
  state : TaskState
  pid : Int
  comm : String
  prio : Int
  static_prio : Int
  normal_prio : Int
  rt_priority : Nat
  context : TaskContext
  stackPtr : Nat
  stackSize : Nat
  funcAddr : Nat
  exit_code : Int
  parentPid : Option Int
  flags : Nat
  tcbPtr : Nat
  deriving DecidableEq

def dummy_task : Task :=
  { state := .running, pid := 0, comm := "", prio := 0, static_prio := 0,
    normal_prio := 0, rt_priority := 0,
    context := { r15 := 0, r14 := 0, r13 := 0, r12 := 0, rbp := 0, rbx := 0,
                 r11 := 0, r10 := 0, r9 := 0, r8 := 0, rax := 0, rcx := 0,
                 rdx := 0, rsi := 0, rdi := 0, orig_rax := 0, rip := 0,
                 cs := 0, eflags := 0, rsp := 0, ss := 0 },
    stackPtr := 0, stackSize := 0, funcAddr := 0, exit_code := 0,
    parentPid := none, flags := 0, tcbPtr := 0 }

/-- Global scheduler state: the C globals of task.c plus the heap model. -/
structure SchedState where
  runqueue : List Task
  current_task : Option Int
  next_pid : Int
  tick_counter : Nat
  heapTape : List (Option Nat)
  allocated : List Nat
  reaped : List Task
  deriving DecidableEq

/-- `malloc`: consumes the next oracle outcome; a returned block becomes
live. -/
def kmalloc (s : SchedState) : Option Nat × SchedState :=
  match s.heapTape with
  | [] => (none, s)
  | none :: rest => (none, { s with heapTape := rest })
  | some p :: rest =>
      (some p, { s with heapTape := rest, allocated := p :: s.allocated })

/-- `free`: the block stops being live. -/
def kfree (p : Nat) (s : SchedState) : SchedState :=
  { s with allocated := s.allocated.erase p }

/-- `scheduler_init()`. -/
def scheduler_init (s : SchedState) : SchedState :=
  { s with runqueue := [], current_task := none, next_pid := 1 }

/-- A fresh boot state with the given heap oracle (the static
`scheduler_tick` counter starts at zero at program load). -/
def sched_boot (tape : List (Option Nat)) : SchedState :=
  { runqueue := [], current_task := none, next_pid := 1, tick_counter := 0,
    heapTape := tape, allocated := [], reaped := [] }

/-- `add_task_to_runqueue`: insertion at the head of the circular list. -/
def add_task_to_runqueue (t : Task) (s : SchedState) : SchedState :=
  { s with runqueue := t :: s.runqueue }

/-- `remove_task_from_runqueue`: unlink the (unique) node with this PID;
removing the head makes its successor the head, removing the sole member
empties the queue — exactly the list erase. -/
def remove_task_from_runqueue (p : Int) (s : SchedState) : SchedState :=
  { s with runqueue := s.runqueue.eraseP (fun t => t.pid == p) }

/-- `task_create(func, name)` from task.c, in source order: TCB `malloc`
(failure returns NULL at once), `memset`, PID assignment `next_pid++`,
field initialization, name copy (`strncpy` into `char comm[16]`), stack
`malloc` (failure frees the TCB and returns NULL), context seeding
(16-byte-aligned stack top, `rip = func`, `cs = 0x08`, `ss = 0x10`,
`eflags = 0x202`, all GPRs zero), head insertion into the runqueue. -/
def task_create (func : Nat) (name : Option String) (s : SchedState) :
    Option Task × SchedState :=
  match kmalloc s with
  | (none, s1) => (none, s1)
  | (some tcbPtr, s1) =>
    let pid := s1.next_pid
    let s2 := { s1 with next_pid := s1.next_pid + 1 }
    let comm := match name with
      | some n => n.take 15
      | none => "unknown"
    match kmalloc s2 with
    | (none, s3) => (none, kfree tcbPtr s3)
    | (some stackPtr, s3) =>
      let stackTop := stackPtr + 3072
      let alignedTop := stackTop - stackTop % 16
      let ctx : TaskContext :=
        { r15 := 0, r14 := 0, r13 := 0, r12 := 0, rbp := 0, rbx := 0,
          r11 := 0, r10 := 0, r9 := 0, r8 := 0, rax := 0, rcx := 0,
          rdx := 0, rsi := 0, rdi := 0, orig_rax := 0,
          rip := func, cs := 8, eflags := 0x202, rsp := alignedTop, ss := 0x10 }
      let t : Task :=
        { state := .running, pid := pid, comm := comm, prio := 120,
          static_prio := 120, normal_prio := 120, rt_priority := 0,
          context := ctx, stackPtr := stackPtr, stackSize := 3072,
          funcAddr := func, exit_code := 0, parentPid := s.current_task,
          flags := 1, tcbPtr := tcbPtr }
      (some t, add_task_to_runqueue t s3)

/-- `schedule()` from task.c: no-op on an empty runqueue; with no current
task select the head; otherwise select `current->next` (cyclic successor;
`none` models the NULL `next` of a task already unlinked by
`remove_task_from_runqueue`).  A switch happens only when the selection is
non-NULL and differs from the current task; the context-switch itself is
modelled separately (`switch_to`). -/
def schedule (s : SchedState) : SchedState :=
  if s.runqueue.isEmpty then s
  else
    let next : Option Int :=
      match s.current_task with
      | none => some ((s.runqueue.headD dummy_task).pid)
      | some c =>
        match s.runqueue.findIdx? (fun t => t.pid == c) with
        | some i => some ((s.runqueue.getD ((i + 1) % s.runqueue.length) dummy_task).pid)
        | none => none
    match next with
    | none => s
    | some n => if s.current_task = some n then s else { s with current_task := some n }

/-- `task_exit(exit_code)`: mark the current task ZOMBIE through the
`current_task` pointer, record the exit code, unlink it, and call
`schedule()`.  Storage is *not* freed. -/
def task_exit (code : Int) (s : SchedState) : SchedState :=
  match s.current_task with
  | none => s
  | some c =>
    let s1 := { s with runqueue := s.runqueue.map (fun t =>
      if t.pid == c then { t with state := .zombie, exit_code := code } else t) }
    schedule (remove_task_from_runqueue c s1)

/-- `scheduler_tick()`: returns at once when no task is current; otherwise
increments the static counter and, when it reaches 25, zeroes it and calls
`schedule()`. -/
def scheduler_tick (s : SchedState) : SchedState :=
  if s.current_task = none then s
  else if 25 ≤ s.tick_counter + 1 then schedule { s with tick_counter := 0 }
  else { s with tick_counter := s.tick_counter + 1 }

/-- `yield()`. -/
def yield (s : SchedState) : SchedState := schedule s

/-- `find_task_by_pid(pid)`: NULL on an empty queue or `pid <= 0`, else the
first match in one pass around the circle starting at the head. -/
def find_task_by_pid (s : SchedState) (p : Int) : Option Task :=
  if s.runqueue.isEmpty ∨ p ≤ 0 then none
  else s.runqueue.find? (fun t => t.pid == p)

/-- `kill_task(pid)` from task.c: `-1` for `pid <= 0` or no match, `-2` when
the target is the current task; otherwise mark ZOMBIE, unlink, free the
stack (the C checks `if (target->stack)`) and the TCB, return `0`.  The
ghost `reaped` list records the freed record, ZOMBIE mark included. -/
def kill_task (p : Int) (s : SchedState) : Int × SchedState :=
  if p ≤ 0 then (-1, s)
  else
    match find_task_by_pid s p with
    | none => (-1, s)
    | some t =>
      if s.current_task = some t.pid then (-2, s)
      else
        let tz := { t with state := .zombie }
        let s1 := { s with runqueue := s.runqueue.eraseP (fun x => x.pid == t.pid) }
        let s2 := if t.stackPtr ≠ 0 then kfree t.stackPtr s1 else s1
        let s3 := kfree t.tcbPtr s2
        (0, { s3 with reaped := s3.reaped ++ [tz] })

/-- `n` successive `schedule()` calls. -/
def scheduleN (n : Nat) (s : SchedState) : SchedState :=
  match n with
  | 0 => s
  | n + 1 => schedule (scheduleN n s)

/-- `n` successive `scheduler_tick()` calls. -/
def scheduler_tickN (n : Nat) (s : SchedState) : SchedState :=
  match n with
  | 0 => s
  | n + 1 => scheduler_tick (scheduler_tickN n s)

/-! ## Claim theorems for the scheduler -/

/-- C9: whenever `current_task` is NULL, `scheduler_tick()` returns
immediately: the internal counter is not incremented, `schedule()` is not
called, and the whole scheduler state is unchanged — timer preemption
cannot begin before a first synchronous `schedule()` selects a task. -/
theorem C9_tick_noop_without_current_task (s : SchedState)
    (h : s.current_task = none) : scheduler_tick s = s := by
  unfold scheduler_tick
  rw [if_pos h]

theorem C9_tick_noop_without_current_task_witness :
    scheduler_tick (sched_boot []) = sched_boot [] :=
  C9_tick_noop_without_current_task (sched_boot []) rfl

/-- Modelled from the spec: the `pit_init` configuration call in the kernel
entry point is not among the sources; the repository's timer documentation
("Current Settings: Frequency: 10Hz", `TASKING.md`: "PIT Frequency: 10Hz")
fixes the configured timer frequency at 10 Hz, so one second of wall time
is 10 ticks. -/
def pit_configured_frequency : Nat := 10

/-- A state with one running task current and the tick counter at zero. -/
def c3_task : Task :=
  { dummy_task with
      pid := 1
      comm := "idle"
      prio := 120
      static_prio := 120
      normal_prio := 120
      stackPtr := 0x9000
      stackSize := 3072
      funcAddr := 0x400000
      flags := 1
      tcbPtr := 0x8000 }

def c3_state : SchedState :=
  { runqueue := [c3_task], current_task := some 1, next_pid := 2,
    tick_counter := 0, heapTape := [], allocated := [], reaped := [] }

/-- C3 counterexample: at the configured 10 Hz, the threshold corresponding
to ~1 second is 10 ticks, but after exactly 10 `scheduler_tick()` calls the
internal counter holds 10 — it was never reset and `schedule()` was never
called at the one-second boundary (the code's threshold is 25 ticks). -/
theorem C3_counterexample_no_reset_after_one_second :
    pit_configured_frequency = 10
    ∧ (scheduler_tickN pit_configured_frequency c3_state).tick_counter = 10
    ∧ (10 : Nat) ≠ 0 := by
  decide

/-- C3 (amended): for every scheduler state with a current task selected and
the counter at zero, each of the first 24 `scheduler_tick()` calls only
increments the internal counter (no `schedule()` call), and the 25th call
resets the counter to zero and calls `schedule()` — a threshold of 25
ticks, which the code comments as 0.5 s at 50 Hz and which is 2.5 s at the
documented 10 Hz configuration, not ~1 second. -/
theorem C3_tick_schedules_every_25_ticks (s : SchedState) (c : Int)
    (hc : s.current_task = some c) (h0 : s.tick_counter = 0) :
    (∀ k, k ≤ 24 → scheduler_tickN k s = { s with tick_counter := k })
    ∧ scheduler_tickN 25 s = schedule s := by
  have hstep : ∀ k, k ≤ 24 → scheduler_tickN k s = { s with tick_counter := k } := by
    intro k
    induction k with
    | zero =>
      intro _
      show s = { s with tick_counter := 0 }
      rw [← h0]
    | succ k ih =>
      intro hk
      show scheduler_tick (scheduler_tickN k s) = _
      rw [ih (by omega)]
      unfold scheduler_tick
      rw [if_neg (show ¬ ({ s with tick_counter := k } : SchedState).current_task = none by
        simp [hc])]
      rw [if_neg (show ¬ (25 ≤ ({ s with tick_counter := k } : SchedState).tick_counter + 1) by
        show ¬ (25 ≤ k + 1)
        omega)]
  refine ⟨hstep, ?_⟩
  show scheduler_tick (scheduler_tickN 24 s) = schedule s
  rw [hstep 24 (le_refl _)]
  unfold scheduler_tick
  rw [if_neg (show ¬ ({ s with tick_counter := 24 } : SchedState).current_task = none by
    simp [hc])]
  rw [if_pos (show 25 ≤ ({ s with tick_counter := 24 } : SchedState).tick_counter + 1 by
    show 25 ≤ 24 + 1
    omega)]
  rw [show ({ s with tick_counter := 0 } : SchedState) = s from by rw [← h0]]

theorem C3_tick_schedules_every_25_ticks_witness :
    scheduler_tickN 25 c3_state = schedule c3_state :=
  (C3_tick_schedules_every_25_ticks c3_state 1 rfl rfl).2

/-! ### C1: round-robin visiting order -/

/-- Heap oracle for three successful task creations (TCB and stack each). -/
def c1_tape : List (Option Nat) :=
  [some 4096, some 8192, some 12288, some 16384, some 20480, some 24576]

/-- Tasks A, B, C created in that order into an initially empty runqueue
(PIDs 1, 2, 3). -/
def c1_after_creates : SchedState :=
  (task_create 0xC000 (some "C")
    (task_create 0xB000 (some "B")
      (task_create 0xA000 (some "A") (sched_boot c1_tape)).2).2).2

/-- C1 counterexample: after creating A, B, C (PIDs 1, 2, 3) in that order,
the first `schedule()` selects C (PID 3), not A, and the call after visiting
C selects B (PID 2), not A — so the visiting order is not the cyclic
creation order A, B, C under any rotation. -/
theorem C1_counterexample_first_visits_C_then_B :
    (scheduleN 1 c1_after_creates).current_task = some 3
    ∧ (scheduleN 2 c1_after_creates).current_task = some 2
    ∧ ¬ (scheduleN 2 c1_after_creates).current_task = some 1 := by
  decide

/-- The PID the code actually selects on the `(m+1)`-st `schedule()` call:
C, B, A cyclically. -/
def c1_expected (m : Nat) : Int :=
  if m % 3 = 0 then 3 else if m % 3 = 1 then 2 else 1

/-- C1 (amended): creating A, B, C (in that order, PIDs 1, 2, 3) into an
initially empty runqueue and repeatedly calling `schedule()` visits the
tasks indefinitely in the cyclic *reverse* creation order C, B, A, C, B, A,
… — each task once per period of three — because `add_task_to_runqueue`
inserts at the head of the circular list and `schedule()` follows `next`
links. -/
theorem C1_round_robin_reverse_creation_order (n : Nat) :
    (scheduleN (n + 1) c1_after_creates).current_task = some (c1_expected n) := by
  have h0 : schedule c1_after_creates
      = { c1_after_creates with current_task := some 3 } := by decide
  have h3 : schedule { c1_after_creates with current_task := some 3 }
      = { c1_after_creates with current_task := some 2 } := by decide
  have h2 : schedule { c1_after_creates with current_task := some 2 }
      = { c1_after_creates with current_task := some 1 } := by decide
  have h1 : schedule { c1_after_creates with current_task := some 1 }
      = { c1_after_creates with current_task := some 3 } := by decide
  have key : ∀ m, scheduleN (m + 1) c1_after_creates
      = { c1_after_creates with current_task := some (c1_expected m) } := by
    intro m
    induction m with
    | zero =>
      show schedule (scheduleN 0 c1_after_creates) = _
      rw [show scheduleN 0 c1_after_creates = c1_after_creates from rfl, h0]
      norm_num [c1_expected]
    | succ k ih =>
      show schedule (scheduleN (k + 1) c1_after_creates) = _
      rw [ih]
      have hcases : k % 3 = 0 ∨ k % 3 = 1 ∨ k % 3 = 2 := by omega
      rcases hcases with h | h | h
      · have hk1 : (k + 1) % 3 = 1 := by omega
        simp only [c1_expected, h, hk1]
        norm_num
        exact h3
      · have hk1 : (k + 1) % 3 = 2 := by omega
        simp only [c1_expected, h, hk1]
        norm_num
        exact h2
      · have hk1 : (k + 1) % 3 = 0 := by omega
        simp only [c1_expected, h, hk1]
        norm_num
        exact h1
  rw [key n]

/-! ### C6: kill_task error codes and success path -/

/-- C6: `kill_task(pid)` returns the "not found" code `-1` (leaving the
state untouched) when no runqueue task carries `pid` — in particular for a
task that already exited via `task_exit` and was unlinked; it returns the
distinct "self-kill" code `-2` (state untouched) when the found target is
the currently running task; otherwise it removes the target from the
runqueue, frees its stack and TCB, records the ZOMBIE-marked record, and
returns `0`. -/
theorem C6_kill_task_spec (s : SchedState) (p : Int) :
    ((∀ t ∈ s.runqueue, t.pid ≠ p) → kill_task p s = (-1, s))
    ∧ (∀ t, 0 < p → s.runqueue.find? (fun x => x.pid == p) = some t →
        s.current_task = some t.pid → kill_task p s = (-2, s))
    ∧ (∀ t, 0 < p → s.runqueue.find? (fun x => x.pid == p) = some t →
        s.current_task ≠ some t.pid →
        kill_task p s = (0, { s with
          runqueue := s.runqueue.eraseP (fun x => x.pid == t.pid)
          allocated := ((if t.stackPtr ≠ 0 then s.allocated.erase t.stackPtr
                         else s.allocated).erase t.tcbPtr)
          reaped := s.reaped ++ [{ t with state := .zombie }] })) := by
  refine ⟨?_, ?_, ?_⟩
  · intro hall
    unfold kill_task
    by_cases hp : p ≤ 0
    · rw [if_pos hp]
    · rw [if_neg hp]
      have hfind : find_task_by_pid s p = none := by
        unfold find_task_by_pid
        by_cases he : s.runqueue.isEmpty ∨ p ≤ 0
        · rw [if_pos he]
        · rw [if_neg he]
          apply List.find?_eq_none.mpr
          intro x hx
          simpa using hall x hx
      rw [hfind]
  · intro t hp hfind hcur
    unfold kill_task
    rw [if_neg (by omega)]
    have hft : find_task_by_pid s p = some t := by
      unfold find_task_by_pid
      have hne : ¬ (s.runqueue.isEmpty ∨ p ≤ 0) := by
        rintro (hemp | hle)
        · rw [List.isEmpty_iff.mp hemp] at hfind
          simp at hfind
        · omega
      rw [if_neg hne]
      exact hfind
    rw [hft]
    dsimp only
    rw [if_pos hcur]
  · intro t hp hfind hcur
    unfold kill_task
    rw [if_neg (by omega)]
    have hft : find_task_by_pid s p = some t := by
      unfold find_task_by_pid
      have hne : ¬ (s.runqueue.isEmpty ∨ p ≤ 0) := by
        rintro (hemp | hle)
        · rw [List.isEmpty_iff.mp hemp] at hfind
          simp at hfind
        · omega
      rw [if_neg hne]
      exact hfind
    rw [hft]
    dsimp only
    rw [if_neg hcur]
    unfold kfree
    by_cases hstack : t.stackPtr ≠ 0
    · rw [if_pos hstack, if_pos hstack]
    · rw [if_neg hstack, if_neg hstack]

/-- Two-task scenario for the witness: PIDs 1 and 2, task 2 current. -/
def c6_t1 : Task :=
  { dummy_task with
      pid := 1
      comm := "worker"
      stackPtr := 0x9000
      tcbPtr := 0x8000 }

def c6_t2 : Task :=
  { dummy_task with
      pid := 2
      comm := "shell"
      stackPtr := 0x9100
      tcbPtr := 0x8100 }

def c6_state : SchedState :=
  { runqueue := [c6_t2, c6_t1], current_task := some 2, next_pid := 3,
    tick_counter := 0, heapTape := [],
    allocated := [0x8000, 0x9000, 0x8100, 0x9100], reaped := [] }

theorem C6_kill_task_spec_witness :
    kill_task 5 c6_state = (-1, c6_state)
    ∧ kill_task 2 c6_state = (-2, c6_state)
    ∧ kill_task 1 c6_state = (0, { c6_state with
        runqueue := c6_state.runqueue.eraseP (fun x => x.pid == c6_t1.pid)
        allocated := ((if c6_t1.stackPtr ≠ 0 then c6_state.allocated.erase c6_t1.stackPtr
                       else c6_state.allocated).erase c6_t1.tcbPtr)
        reaped := c6_state.reaped ++ [{ c6_t1 with state := .zombie }] })
    ∧ kill_task 2 (task_exit 0 c6_state) = (-1, task_exit 0 c6_state) :=
  ⟨(C6_kill_task_spec c6_state 5).1 (by decide),
   (C6_kill_task_spec c6_state 2).2.1 c6_t2 (by decide) (by decide) (by decide),
   (C6_kill_task_spec c6_state 1).2.2 c6_t1 (by decide) (by decide) (by decide),
   (C6_kill_task_spec (task_exit 0 c6_state) 2).1 (by decide)⟩

/-! ### C7: task_create failure paths -/

/-- C7 (amended): a failing `task_create` leaks no allocation and leaves
the runqueue unchanged; on TCB-allocation failure all scheduler state is
untouched, but on stack-allocation failure the PID counter has already been
incremented (`task->pid = next_pid++` precedes the stack `malloc`), so the
attempted PID is consumed even though no task was created. -/
theorem C7_task_create_failure_no_leak (s : SchedState) (func : Nat)
    (name : Option String) :
    (∀ rest, s.heapTape = none :: rest →
      task_create func name s = (none, { s with heapTape := rest }))
    ∧ (∀ p rest, s.heapTape = some p :: none :: rest →
      task_create func name s
        = (none, { s with heapTape := rest, next_pid := s.next_pid + 1 })) := by
  constructor
  · intro rest h
    unfold task_create kmalloc
    rw [h]
  · intro p rest h
    unfold task_create kmalloc kfree
    rw [h]
    simp [List.erase_cons_head]

/-- Oracle: TCB allocation fails outright. -/
def c7_tcb_fail_state : SchedState := sched_boot [none]

/-- Oracle: TCB allocation succeeds, stack allocation fails. -/
def c7_stack_fail_state : SchedState := sched_boot [some 4096, none]

theorem C7_task_create_failure_no_leak_witness :
    task_create 0x400000 (some "T") c7_tcb_fail_state
      = (none, { c7_tcb_fail_state with heapTape := [] })
    ∧ task_create 0x400000 (some "T") c7_stack_fail_state
      = (none, { c7_stack_fail_state with
            heapTape := []
            next_pid := c7_stack_fail_state.next_pid + 1 }) :=
  ⟨(C7_task_create_failure_no_leak c7_tcb_fail_state 0x400000 (some "T")).1 [] rfl,
   (C7_task_create_failure_no_leak c7_stack_fail_state 0x400000 (some "T")).2 4096 [] rfl⟩

/-- C7 counterexample: with the TCB allocation succeeding and the stack
allocation failing, `task_create` fails and leaks nothing, yet `next_pid`
has advanced from 1 to 2 — the PID counter is *not* left consistent with no
task having been created. -/
theorem C7_counterexample_pid_counter_advances :
    (task_create 0x400000 (some "T") (sched_boot [some 4096, none])).1 = none
    ∧ ((task_create 0x400000 (some "T") (sched_boot [some 4096, none])).2).allocated = []
    ∧ ((task_create 0x400000 (some "T") (sched_boot [some 4096, none])).2).runqueue = []
    ∧ ((task_create 0x400000 (some "T") (sched_boot [some 4096, none])).2).next_pid = 2
    ∧ (sched_boot [some 4096, none]).next_pid = 1
    ∧ (2 : Int) ≠ 1 := by
  decide

/-! ## The context-switch primitive (`src/unnamed/part_011`, switch.asm)

The assembly is embedded instruction by instruction over a small machine
state: the callee-saved registers plus `rsp`, a 64-bit-word memory indexed
by byte address, and the two `task_context_t` records passed in `rdi`
(`prev`, may be NULL) and `rsi` (`next`).  Memory accesses to the context
records are resolved through the byte offsets written in the assembly
(`ctx_load`/`ctx_store` below), against the field layout declared in
`task.h` — 21 consecutive `uint64_t`s, so field `n` lives at offset `8*n`:
r15@0, r14@8, r13@16, r12@24, rbp@32, rbx@40, r11@48, r10@56, r9@64, r8@72,
rax@80, rcx@88, rdx@96, rsi@104, rdi@112, orig_rax@120, rip@128, cs@136,
eflags@144, rsp@152, ss@160. -/

structure SwitchRegs where
  rbx : Nat
  rbp : Nat
  r12 : Nat
  r13 : Nat
  r14 : Nat
  r15 : Nat
  rsp : Nat
  deriving DecidableEq

/-- Read a `task_context_t` record at a byte offset (`task.h` layout). -/
def ctx_load (c : TaskContext) (off : Nat) : Nat :=
  if off = 0 then c.r15 else if off = 8 then c.r14 else if off = 16 then c.r13
  else if off = 24 then c.r12 else if off = 32 then c.rbp else if off = 40 then c.rbx
  else if off = 48 then c.r11 else if off = 56 then c.r10 else if off = 64 then c.r9
  else if off = 72 then c.r8 else if off = 80 then c.rax else if off = 88 then c.rcx
  else if off = 96 then c.rdx else if off = 104 then c.rsi else if off = 112 then c.rdi
  else if off = 120 then c.orig_rax else if off = 128 then c.rip
  else if off = 136 then c.cs else if off = 144 then c.eflags
  else if off = 152 then c.rsp else if off = 160 then c.ss
  else 0

/-- Write a `task_context_t` record at a byte offset (`task.h` layout). -/
def ctx_store (c : TaskContext) (off v : Nat) : TaskContext :=
  if off = 0 then { c with r15 := v } else if off = 8 then { c with r14 := v }
  else if off = 16 then { c with r13 := v } else if off = 24 then { c with r12 := v }
  else if off = 32 then { c with rbp := v } else if off = 40 then { c with rbx := v }
  else if off = 48 then { c with r11 := v } else if off = 56 then { c with r10 := v }
  else if off = 64 then { c with r9 := v } else if off = 72 then { c with r8 := v }
  else if off = 80 then { c with rax := v } else if off = 88 then { c with rcx := v }
  else if off = 96 then { c with rdx := v } else if off = 104 then { c with rsi := v }
  else if off = 112 then { c with rdi := v } else if off = 120 then { c with orig_rax := v }
  else if off = 128 then { c with rip := v } else if off = 136 then { c with cs := v }
  else if off = 144 then { c with eflags := v } else if off = 152 then { c with rsp := v }
  else if off = 160 then { c with ss := v }
  else c

def mem_write (mem : Nat → Nat) (addr v : Nat) : Nat → Nat :=
  fun a => if a = addr then v else mem a

structure SwitchResult where
  regs : SwitchRegs
  prev : Option TaskContext
  mem : Nat → Nat
  jump_target : Nat

/-- `switch_to(prev, next)` from switch.asm, instruction by instruction:
six pushes of the callee-saved registers; if `rdi` (prev) is non-NULL the
stores `[rdi+0]←r15 … [rdi+24]←r12, [rdi+32]←rbx, [rdi+40]←rbp,
[rdi+88]←rsp` (rsp *after* the pushes); then the loads
`r15←[rsi+0] … rbp←[rsi+40]` — whose results are immediately overwritten —,
`rsp←[rsi+88]`, six pops from the new stack into r15, r14, r13, r12, rbx,
rbp, and `jmp [rsi+136]`. -/
def switch_to (r : SwitchRegs) (mem : Nat → Nat) (prev : Option TaskContext)
    (next : TaskContext) : SwitchResult :=
  let mem1 := mem_write mem (r.rsp - 8) r.rbp
  let mem2 := mem_write mem1 (r.rsp - 16) r.rbx
  let mem3 := mem_write mem2 (r.rsp - 24) r.r12
  let mem4 := mem_write mem3 (r.rsp - 32) r.r13
  let mem5 := mem_write mem4 (r.rsp - 40) r.r14
  let mem6 := mem_write mem5 (r.rsp - 48) r.r15
  let rsp1 := r.rsp - 48
  let prev' := prev.map (fun c =>
    ctx_store (ctx_store (ctx_store (ctx_store (ctx_store (ctx_store (ctx_store c
      0 r.r15) 8 r.r14) 16 r.r13) 24 r.r12) 32 r.rbx) 40 r.rbp) 88 rsp1)
  let rsp2 := ctx_load next 88
  { regs :=
      { r15 := mem6 rsp2
        r14 := mem6 (rsp2 + 8)
        r13 := mem6 (rsp2 + 16)
        r12 := mem6 (rsp2 + 24)
        rbx := mem6 (rsp2 + 32)
        rbp := mem6 (rsp2 + 40)
        rsp := rsp2 + 48 }
    prev := prev'
    mem := mem6
    jump_target := ctx_load next 136 }

/-! ### C2: the save/restore contract against the `task_context_t` layout -/

/-- The boot-time scheduler state used to create the task whose context the
switch is exercised on (TCB at `0x8000`, stack at `0x84C0`, so the aligned
stack top is `0x90C0`). -/
def c2_task : Task :=
  (task_create 0x401000 (some "init") (sched_boot [some 0x8000, some 0x84C0])).1.getD
    dummy_task

def c2_ctx : TaskContext := c2_task.context

def c2_regs : SwitchRegs :=
  { rbx := 11, rbp := 12, r12 := 13, r13 := 14, r14 := 15, r15 := 16, rsp := 0x7000 }

def c2_mem : Nat → Nat := fun _ => 0

/-- An outgoing context pre-filled with distinct sentinels, to observe which
fields the save phase writes. -/
def c2_out : TaskContext :=
  { r15 := 1000, r14 := 1001, r13 := 1002, r12 := 1003, rbp := 1004, rbx := 1005,
    r11 := 1006, r10 := 1007, r9 := 1008, r8 := 1009, rax := 1010, rcx := 1011,
    rdx := 1012, rsi := 1013, rdi := 1014, orig_rax := 1015, rip := 1016,
    cs := 1017, eflags := 1018, rsp := 1019, ss := 1020 }

/-- C2 (code bug): `switch_to`'s memory offsets do not match the
`task_context_t` layout it is given.  For the context seeded by
`task_create` (rip = `0x401000` at offset 128, cs = `0x08` at offset 136,
rsp = `0x90C0` at offset 152, rcx = `0` at offset 88), the primitive jumps
to `0x8` — the `cs` field — instead of the recorded instruction pointer,
and takes its stack pointer from the `rcx` field (0), ending with
`rsp = 48`; the save phase writes the stack pointer (minus the 48 bytes of
pushes) into the outgoing `rcx` slot, leaves the declared `rsp` and `rip`
slots untouched, and stores `rbx`/`rbp` into each other's slots (offsets
32/40 hold `rbp`/`rbx` in `task.h`, in that order). -/
theorem C2_switch_to_context_layout_mismatch :
    (c2_ctx.rip = 0x401000 ∧ c2_ctx.cs = 8 ∧ c2_ctx.rsp = 0x90C0 ∧ c2_ctx.rcx = 0)
    ∧ (switch_to c2_regs c2_mem none c2_ctx).jump_target = 8
    ∧ ¬ (switch_to c2_regs c2_mem none c2_ctx).jump_target = c2_ctx.rip
    ∧ (switch_to c2_regs c2_mem none c2_ctx).regs.rsp = 48
    ∧ ¬ (switch_to c2_regs c2_mem none c2_ctx).regs.rsp = c2_ctx.rsp
    ∧ ((switch_to c2_regs c2_mem (some c2_out) c2_ctx).prev.getD c2_out).rcx
        = c2_regs.rsp - 48
    ∧ ((switch_to c2_regs c2_mem (some c2_out) c2_ctx).prev.getD c2_out).rsp = c2_out.rsp
    ∧ ((switch_to c2_regs c2_mem (some c2_out) c2_ctx).prev.getD c2_out).rip = c2_out.rip
    ∧ ((switch_to c2_regs c2_mem (some c2_out) c2_ctx).prev.getD c2_out).rbp = c2_regs.rbx
    ∧ ((switch_to c2_regs c2_mem (some c2_out) c2_ctx).prev.getD c2_out).rbx = c2_regs.rbp := by
  decide

end Cane
